import Mathlib

/-!
Verification of the turn-construction core of `scripts/feature-extraction/2_turns.py`:
the backchannel classifier `is_backchannel` (with its text normalizer
`clean_text_to_words`) and the single-pass turn builder in `main`.

Timestamps are embedded as rationals (`ℚ`); the Python floats in play are
small decimal constants and all comparisons performed by the program are
exact at these values.  Python sets of words are embedded as lists with
membership tests.  The fallible access to the first segment is embedded by
returning `Option`.
-/

/-- `MAX_PAUSE_THRESHOLD = 1.5` from the source. -/
def MAX_PAUSE_THRESHOLD : ℚ := 3 / 2

/-- `MAX_BC_LENGTH = 3` from the source. -/
def MAX_BC_LENGTH : ℕ := 3

/-- The `BACKCHANNEL_CUES` word set from the source. -/
def BACKCHANNEL_CUES : List String :=
  ["a", "ah", "alright", "awesome", "cool", "dope", "e", "exactly",
   "god", "gotcha", "huh", "hmm", "mhm", "mm", "mmm", "nice",
   "oh", "okay", "really", "right", "sick", "sucks", "sure",
   "uh", "um", "wow", "yeah", "yep", "yes", "yup"]

/-- The `NOT_BACKCHANNEL_CUES` word set from the source (`\x27` is the
apostrophe of the contraction entries). -/
def NOT_BACKCHANNEL_CUES : List String :=
  ["and", "but", "i", "i\x27m", "it", "it\x27s", "like", "so",
   "that", "that\x27s", "we", "we\x27re", "well", "you", "you\x27re"]

/-- Whitespace splitter: Python `str.split()` with no separator, splitting on
runs of whitespace and discarding empty pieces.  `acc` holds the characters of
the word in progress, reversed. -/
def splitWsAux : List Char → List Char → List (List Char)
  | [], acc => if acc = [] then [] else [acc.reverse]
  | c :: cs, acc =>
    if c.isWhitespace then
      if acc = [] then splitWsAux cs [] else acc.reverse :: splitWsAux cs []
    else splitWsAux cs (c :: acc)

/-- `clean_text_to_words` from the source: lowercase, delete every character
that is neither a lowercase letter nor whitespace (`re.sub(r"[^a-z\s]", "", _)`),
then split on whitespace.  (Lean `Char.isWhitespace` covers the ASCII
whitespace relevant to the inputs.) -/
def clean_text_to_words (text : String) : List String :=
  let lowered := text.data.map Char.toLower
  let kept := lowered.filter (fun c => (Char.ofNat 97 ≤ c ∧ c ≤ Char.ofNat 122) ∨ c.isWhitespace)
  (splitWsAux kept []).map (fun cs => String.mk cs)

/-- `is_backchannel` from the source. -/
def is_backchannel (text : String) : Bool :=
  let words := clean_text_to_words text
  if words.any (fun w => decide (w ∈ NOT_BACKCHANNEL_CUES)) then
    false
  else if MAX_BC_LENGTH < words.length then
    false
  else
    let bc_count := words.countP (fun w => decide (w ∈ BACKCHANNEL_CUES))
    if 0 < words.length ∧ (1 / 2 : ℚ) ≤ (bc_count : ℚ) / (words.length : ℚ) then
      true
    else
      false

/-- An input row of the segment table: one ASR segment. -/
structure Segment where
  speaker : String
  start : ℚ
  stop : ℚ
  text : String
deriving DecidableEq, Repr

/-- A conversational turn, as the dict built in `main` (`stop` embeds the
`"end"` key, a reserved word in Lean). -/
structure Turn where
  speaker : String
  start : ℚ
  stop : ℚ
  text : String
  bc_count : ℕ
  secondary_speech : List String
deriving DecidableEq, Repr

/-- Format a nonnegative rational with two decimal digits, as Python
`f"{x:.2f}"` does on the (exactly representable) centisecond timestamps in
play: round `q * 100` to the nearest integer and print with two digits. -/
def format2fAux (q : ℚ) : String :=
  let r := q * 100 + 1 / 2
  let n : ℕ := (r.num / (r.den : ℤ)).toNat
  toString (n / 100) ++ "." ++ (if n % 100 < 10 then "0" else "") ++ toString (n % 100)

/-- Python `f"{x:.2f}"`, signs included. -/
def format2f (q : ℚ) : String :=
  if q < 0 then "-" ++ format2fAux (-q) else format2fAux q

/-- The secondary-speech entry built in `main`:
`f"{row['speaker']}: [{row['start']:.2f}-{row['end']:.2f}]: {text}"`
where `text` is the stripped segment text. -/
def bcNote (row : Segment) : String :=
  row.speaker ++ ": [" ++ format2f row.start ++ "-" ++ format2f row.stop ++ "]: " ++ row.text.trim

/-- The fresh `current_turn` dict built from a segment (used for the first
segment and at every turn switch). -/
def seedTurn (row : Segment) : Turn :=
  { speaker := row.speaker, start := row.start, stop := row.stop,
    text := row.text.trim, bc_count := 0, secondary_speech := [] }

/-- One iteration of the loop in `main`: given the closed turns and the open
turn, process the next row. -/
def stepTurn (acc : List Turn × Turn) (row : Segment) : List Turn × Turn :=
  let turns := acc.1
  let cur := acc.2
  let gap := row.start - cur.stop
  let text := row.text.trim
  if row.speaker = cur.speaker then
    if gap < MAX_PAUSE_THRESHOLD then
      (turns, { cur with stop := row.stop, text := cur.text ++ " " ++ text })
    else
      (turns ++ [cur], seedTurn row)
  else
    if is_backchannel text then
      (turns, { cur with
                bc_count := cur.bc_count + 1
                secondary_speech := cur.secondary_speech ++ [bcNote row] })
    else
      (turns ++ [cur], seedTurn row)

/-- The turn-construction pass of `main`: seed from the first segment, fold
the loop body over the rest, then append the final open turn.  Accessing the
first row of an empty table raises in the source; that failure is embedded as
`none`. -/
def build_turns (segs : List Segment) : Option (List Turn) :=
  match segs with
  | [] => none
  | s :: rest =>
    let acc := rest.foldl stepTurn ([], seedTurn s)
    some (acc.1 ++ [acc.2])

/-- Concrete segments used to instantiate the theorems below (the short-pause
merge scenario of the spec). -/
def wSegA : Segment := { speaker := "A", start := 0, stop := 2, text := "hello there" }

/-- Second segment of the short-pause merge scenario. -/
def wSegB : Segment := { speaker := "A", start := 14 / 5, stop := 4, text := "how are you" }

/-- First segment of the backchannel-absorption scenario. -/
def c7s0 : Segment := { speaker := "A", start := 0, stop := 3, text := "so I went to the store" }

/-- The backchannel segment of the backchannel-absorption scenario. -/
def c7s1 : Segment := { speaker := "B", start := 31 / 10, stop := 34 / 10, text := "uh huh" }

/-- Third segment of the backchannel-absorption scenario. -/
def c7s2 : Segment := { speaker := "A", start := 35 / 10, stop := 5, text := "and bought milk" }

/-- A segment containing a later, shorter segment: sorted by `start` but with
a decreasing `stop`. -/
def c4s0 : Segment := { speaker := "A", start := 0, stop := 10, text := "x" }

/-- The nested segment: starts after `c4s0` but stops before it does. -/
def c4s1 : Segment := { speaker := "A", start := 1, stop := 2, text := "y" }

/-- Ghost-instrumented open turn for the conservation argument: the turn as
`stepTurn` builds it, plus which input segments fed its `text` (`contrib`,
seed first) and which were recorded in `secondary_speech` (`absorbed`). -/
structure GTurn where
  turn : Turn
  contrib : List Segment
  absorbed : List Segment

/-- Ghost counterpart of `seedTurn`. -/
def gseed (row : Segment) : GTurn :=
  { turn := seedTurn row, contrib := [row], absorbed := [] }

/-- Ghost counterpart of `stepTurn`: identical branching, additionally
tracking where the processed segment went. -/
def gstep (acc : List GTurn × GTurn) (row : Segment) : List GTurn × GTurn :=
  let gs := acc.1
  let g := acc.2
  if row.speaker = g.turn.speaker then
    if row.start - g.turn.stop < MAX_PAUSE_THRESHOLD then
      (gs, { turn := { g.turn with
                       stop := row.stop
                       text := g.turn.text ++ " " ++ row.text.trim }
             contrib := g.contrib ++ [row]
             absorbed := g.absorbed })
    else
      (gs ++ [g], gseed row)
  else
    if is_backchannel row.text.trim then
      (gs, { turn := { g.turn with
                       bc_count := g.turn.bc_count + 1
                       secondary_speech := g.turn.secondary_speech ++ [bcNote row] }
             contrib := g.contrib
             absorbed := g.absorbed ++ [row] })
    else
      (gs ++ [g], gseed row)

/-- The input segments a ghost turn accounts for. -/
def gSegs (g : GTurn) : List Segment := g.contrib ++ g.absorbed

/-- All segments accounted for by an accumulator state, as a multiset. -/
def gAll (gs : List GTurn) (g : GTurn) : Multiset Segment :=
  (((gs.map gSegs).flatten ++ gSegs g : List Segment) : Multiset Segment)

/-- Space-joined concatenation, the shape in which the merge loop accumulates
`text`. -/
def joinSpace : List String → String
  | [] => ""
  | [w] => w
  | w :: ws => w ++ " " ++ joinSpace ws

/-- Per-turn ghost invariant: `text` is the space-join of the trimmed texts of
the contributing segments (at least one), and `secondary_speech` is exactly
one `bcNote` annotation per absorbed segment, in order. -/
def GInvar (g : GTurn) : Prop :=
  g.turn.text = joinSpace (g.contrib.map (fun s => s.text.trim)) ∧
  g.turn.secondary_speech = g.absorbed.map bcNote ∧
  g.contrib ≠ []

example : clean_text_to_words ("I\x27m Okay!") = ["im", "okay"] := by decide
example : is_backchannel ("uh huh") = true := by with_unfolding_all decide
example : is_backchannel ("yeah but i disagree") = false := by with_unfolding_all decide
example : is_backchannel ("yeah okay right sure") = false := by with_unfolding_all decide
example : is_backchannel ("I\x27m okay") = true := by with_unfolding_all decide
example : format2f (31 / 10) = "3.10" := by with_unfolding_all decide
example : format2f (34 / 10) = "3.40" := by with_unfolding_all decide

/-- C3: the builder signals failure on an empty segment sequence (the source
accesses the first row, which raises; embedded as `none`) and returns a turn
sequence exactly on non-empty input. -/
theorem C3_empty_input_fails :
    build_turns [] = none ∧
    ∀ (s : Segment) (rest : List Segment), (build_turns (s :: rest)).isSome = true := by
  refine ⟨rfl, ?_⟩
  intro s rest
  simp [build_turns]

/-- C3 witness: on a concrete one-segment input the builder succeeds. -/
theorem C3_witness : (build_turns [c7s0]).isSome = true :=
  C3_empty_input_fails.2 c7s0 []

/-- C1: a non-first segment with the open turn's speaker is merged when
`gap < MAX_PAUSE_THRESHOLD` (extending `stop` to the segment's stop and
appending a space plus the trimmed text), and otherwise closes the open
turn and seeds a new one from the segment. -/
theorem C1_same_speaker_merge_or_close (turns : List Turn) (cur : Turn) (row : Segment)
    (hsp : row.speaker = cur.speaker) :
    (row.start - cur.stop < MAX_PAUSE_THRESHOLD →
      stepTurn (turns, cur) row =
        (turns, { cur with
                  stop := row.stop
                  text := cur.text ++ " " ++ row.text.trim })) ∧
    (¬ row.start - cur.stop < MAX_PAUSE_THRESHOLD →
      stepTurn (turns, cur) row = (turns ++ [cur], seedTurn row)) := by
  constructor <;> intro hgap <;> simp [stepTurn, hsp, hgap]

/-- C1 witness: the short-pause merge scenario, gap `0.8 < 1.5`. -/
theorem C1_witness :
    stepTurn ([], seedTurn wSegA) wSegB =
      ([], { seedTurn wSegA with
             stop := wSegB.stop
             text := (seedTurn wSegA).text ++ " " ++ wSegB.text.trim }) :=
  (C1_same_speaker_merge_or_close [] (seedTurn wSegA) wSegB rfl).1
    (by with_unfolding_all decide)

/-- C2: a different-speaker segment classified as a backchannel leaves the
open turn's `speaker`, `start`, `stop` and `text` unchanged, does not close
it, increments `bc_count`, and appends exactly the `bcNote` annotation to
`secondary_speech`. -/
theorem C2_backchannel_absorbed (turns : List Turn) (cur : Turn) (row : Segment)
    (hsp : ¬ row.speaker = cur.speaker) (hbc : is_backchannel row.text.trim = true) :
    stepTurn (turns, cur) row =
      (turns, { cur with
                bc_count := cur.bc_count + 1
                secondary_speech := cur.secondary_speech ++ [bcNote row] }) ∧
    (stepTurn (turns, cur) row).1 = turns ∧
    (stepTurn (turns, cur) row).2.speaker = cur.speaker ∧
    (stepTurn (turns, cur) row).2.start = cur.start ∧
    (stepTurn (turns, cur) row).2.stop = cur.stop ∧
    (stepTurn (turns, cur) row).2.text = cur.text := by
  refine ⟨?_, ?_⟩
  · simp [stepTurn, hsp, hbc]
  · simp [stepTurn, hsp, hbc]

/-- C2 witness: the `uh huh` backchannel is absorbed into the open `A` turn. -/
theorem C2_witness :
    stepTurn ([], seedTurn c7s0) c7s1 =
      ([], { seedTurn c7s0 with
             bc_count := (seedTurn c7s0).bc_count + 1
             secondary_speech := (seedTurn c7s0).secondary_speech ++ [bcNote c7s1] }) :=
  (C2_backchannel_absorbed [] (seedTurn c7s0) c7s1 (by decide)
    (by with_unfolding_all decide)).1

/-- C5: a text any of whose normalized tokens is a negative cue is never
classified as a backchannel, whatever its length or cue density. -/
theorem C5_negative_cue_precedence (t w : String)
    (hw : w ∈ clean_text_to_words t) (hneg : w ∈ NOT_BACKCHANNEL_CUES) :
    is_backchannel t = false := by
  have hany : (clean_text_to_words t).any (fun x => decide (x ∈ NOT_BACKCHANNEL_CUES)) = true :=
    List.any_eq_true.mpr ⟨w, hw, by simpa using hneg⟩
  simp [is_backchannel, hany]

/-- C5 witness: `yeah but i disagree` contains the negative cue `but`, so it
is rejected despite containing `yeah`. -/
theorem C5_witness : is_backchannel ("yeah but i disagree") = false :=
  C5_negative_cue_precedence ("yeah but i disagree") ("but") (by decide) (by decide)

/-- C9: the classifier is a pure total function: it is determined by the
normalized token sequence of its argument and always returns one of the two
booleans. -/
theorem C9_classifier_pure (t u : String)
    (h : clean_text_to_words t = clean_text_to_words u) :
    is_backchannel t = is_backchannel u ∧
    (is_backchannel t = true ∨ is_backchannel t = false) := by
  constructor
  · simp [is_backchannel, h]
  · exact Bool.eq_false_or_eq_true (is_backchannel t)

/-- C9 witness: instantiated at a fixed text. -/
theorem C9_witness :
    is_backchannel ("okay") = is_backchannel ("okay") ∧
    (is_backchannel ("okay") = true ∨ is_backchannel ("okay") = false) :=
  C9_classifier_pure ("okay") ("okay") rfl

/-- C6: with no negative cue present, the classifier accepts exactly the
non-empty token sequences of length at most `MAX_BC_LENGTH` whose fraction of
backchannel-cue tokens is at least one half. -/
theorem C6_no_negative_cue_iff (t : String)
    (hneg : ∀ w ∈ clean_text_to_words t, w ∉ NOT_BACKCHANNEL_CUES) :
    is_backchannel t = true ↔
      clean_text_to_words t ≠ [] ∧
      (clean_text_to_words t).length ≤ MAX_BC_LENGTH ∧
      (1 / 2 : ℚ) ≤
        (((clean_text_to_words t).countP (fun w => decide (w ∈ BACKCHANNEL_CUES)) : ℚ) /
          ((clean_text_to_words t).length : ℚ)) := by
  have hany : (clean_text_to_words t).any (fun w => decide (w ∈ NOT_BACKCHANNEL_CUES)) = false := by
    simp only [List.any_eq_false]
    intro w hw
    simpa using hneg w hw
  simp only [is_backchannel, hany, Bool.false_eq_true, if_false]
  split_ifs with hlen hfrac
  · simp only [false_iff]
    rintro ⟨-, hle, -⟩
    exact absurd (lt_of_lt_of_le hlen hle) (lt_irrefl _)
  · simp only [true_iff]
    exact ⟨List.length_pos.mp hfrac.1, Nat.not_lt.mp hlen, hfrac.2⟩
  · simp only [false_iff]
    rintro ⟨hne, -, hfr⟩
    exact hfrac ⟨List.length_pos.mpr hne, hfr⟩

/-- C6 witness: `uh huh` has two tokens, both cues, and is accepted. -/
theorem C6_witness : is_backchannel ("uh huh") = true :=
  (C6_no_negative_cue_iff ("uh huh") (by decide)).mpr
    ⟨by decide, by decide, by with_unfolding_all decide⟩

/-- C7: the backchannel-absorption scenario produces one `A` turn spanning
0–5 with the absorbed `uh huh` annotated, and the absorbed backchannel did
not advance the open turn's `stop` (still 3 when the third segment's gap is
computed). -/
theorem C7_backchannel_scenario :
    build_turns [c7s0, c7s1, c7s2] =
      some [{ speaker := "A"
              start := 0
              stop := 5
              text := "so I went to the store and bought milk"
              bc_count := 1
              secondary_speech := ["B: [3.10-3.40]: uh huh"] }] ∧
    (stepTurn ([], seedTurn c7s0) c7s1).2.stop = 3 := by
  constructor <;> with_unfolding_all decide

/-- C4 counterexample: on a start-sorted input whose second segment is nested
inside the first (same speaker, short gap), the merge lowers the open turn's
`stop` from 10 to 2, refuting end-monotonicity of merges. -/
theorem C4_counterexample :
    c4s0.start ≤ c4s1.start ∧
    c4s1.speaker = c4s0.speaker ∧
    c4s1.start - (seedTurn c4s0).stop < MAX_PAUSE_THRESHOLD ∧
    (stepTurn ([], seedTurn c4s0) c4s1).2.stop < (seedTurn c4s0).stop ∧
    build_turns [c4s0, c4s1] =
      some [{ speaker := "A"
              start := 0
              stop := 2
              text := "x y"
              bc_count := 0
              secondary_speech := [] }] := by
  refine ⟨?_, ?_, ?_, ?_, ?_⟩ <;> with_unfolding_all decide

/-- C4 amended: a step never changes the open turn's `start` (it either keeps
the open turn or seeds a fresh one whose `start` is the segment's start), and
a merge sets the open turn's `stop` to the merged segment's stop, so it does
not lower `stop` provided that segment stops no earlier than the open turn
did — the extra hypothesis forced by the counterexample. -/
theorem C4_start_fixed_merge_stop (turns : List Turn) (cur : Turn) (row : Segment) :
    ((stepTurn (turns, cur) row).2 = seedTurn row ∨
      ((stepTurn (turns, cur) row).2.speaker = cur.speaker ∧
       (stepTurn (turns, cur) row).2.start = cur.start)) ∧
    (seedTurn row).start = row.start ∧
    (row.speaker = cur.speaker → row.start - cur.stop < MAX_PAUSE_THRESHOLD →
      (stepTurn (turns, cur) row).2.stop = row.stop ∧
      (cur.stop ≤ row.stop → cur.stop ≤ (stepTurn (turns, cur) row).2.stop)) := by
  refine ⟨?_, rfl, ?_⟩
  · simp only [stepTurn]
    split_ifs <;> simp
  · intro hsp hgap
    simp [stepTurn, hsp, hgap]

/-- C4 witness: in the short-pause merge scenario the open turn's stop becomes
the merged segment's stop. -/
theorem C4_witness : (stepTurn ([], seedTurn wSegA) wSegB).2.stop = wSegB.stop :=
  ((C4_start_fixed_merge_stop [] (seedTurn wSegA) wSegB).2.2 rfl
    (by with_unfolding_all decide)).1

/-- Every character of every piece produced by `splitWsAux l acc` comes from
`l` or from `acc`. -/
theorem splitWsAux_chars (l : List Char) : ∀ (acc cs : List Char),
    cs ∈ splitWsAux l acc → ∀ c ∈ cs, c ∈ l ∨ c ∈ acc := by
  induction l with
  | nil =>
    intro acc cs hcs c hc
    simp only [splitWsAux] at hcs
    split_ifs at hcs
    · simp at hcs
    · simp only [List.mem_singleton] at hcs
      subst hcs
      exact Or.inr (List.mem_reverse.mp hc)
  | cons a l ih =>
    intro acc cs hcs c hc
    simp only [splitWsAux] at hcs
    split_ifs at hcs with hws hacc
    · rcases ih [] cs hcs c hc with h | h
      · exact Or.inl (List.mem_cons_of_mem a h)
      · simp at h
    · rcases List.mem_cons.mp hcs with rfl | hmem
      · exact Or.inr (List.mem_reverse.mp hc)
      · rcases ih [] cs hmem c hc with h | h
        · exact Or.inl (List.mem_cons_of_mem a h)
        · simp at h
    · rcases ih (a :: acc) cs hcs c hc with h | h
      · exact Or.inl (List.mem_cons_of_mem a h)
      · rcases List.mem_cons.mp h with rfl | h
        · exact Or.inl (List.mem_cons_self _ _)
        · exact Or.inr h

/-- Every character of every token produced by `clean_text_to_words` is a
lowercase ASCII letter or whitespace — in particular never an apostrophe. -/
theorem clean_text_chars (t w : String) (hw : w ∈ clean_text_to_words t) :
    ∀ c ∈ w.data, (Char.ofNat 97 ≤ c ∧ c ≤ Char.ofNat 122) ∨ c.isWhitespace := by
  intro c hc
  simp only [clean_text_to_words, List.mem_map] at hw
  obtain ⟨cs, hcs, rfl⟩ := hw
  have hchar := splitWsAux_chars _ _ cs hcs c (by simpa using hc)
  rcases hchar with h | h
  · have hmem := List.mem_filter.mp h
    simpa using hmem.2
  · simp at h

/-- C10: normalization deletes apostrophes, so no token ever equals a
contraction entry of the negative-cue set; consequently a contraction cannot
trigger the negative-cue rejection, and `I'm okay` is classified as a
backchannel via its tokens `im`, `okay`. -/
theorem C10_contractions_unreachable :
    (∀ (t w : String), w ∈ clean_text_to_words t →
      w ∉ (["i\x27m", "it\x27s", "that\x27s", "we\x27re", "you\x27re"] : List String)) ∧
    clean_text_to_words ("I\x27m okay") = ["im", "okay"] ∧
    is_backchannel ("I\x27m okay") = true := by
  refine ⟨?_, by decide, by with_unfolding_all decide⟩
  intro t w hw hmem
  have h39 : (Char.ofNat 39) ∈ w.data := by
    simp only [List.mem_cons, List.not_mem_nil, or_false] at hmem
    rcases hmem with rfl | rfl | rfl | rfl | rfl <;> decide
  exact absurd (clean_text_chars t w hw _ h39) (by decide)

/-- C10 witness: the token `im` of `I'm okay` is not a contraction entry. -/
theorem C10_witness :
    ("im" : String) ∉ (["i\x27m", "it\x27s", "that\x27s", "we\x27re", "you\x27re"] : List String) :=
  C10_contractions_unreachable.1 ("I\x27m okay") ("im") (by decide)

/-- Erasing the ghost data from one `gstep` yields one `stepTurn`. -/
theorem gstep_erase (gs : List GTurn) (g : GTurn) (row : Segment) :
    ((gstep (gs, g) row).1.map GTurn.turn, (gstep (gs, g) row).2.turn) =
      stepTurn (gs.map GTurn.turn, g.turn) row := by
  simp only [gstep, stepTurn]
  split_ifs <;> simp [gseed, seedTurn]

/-- Erasing the ghost data from the whole fold yields the builder's fold. -/
theorem gfold_erase (rest : List Segment) : ∀ (gs : List GTurn) (g : GTurn),
    ((rest.foldl gstep (gs, g)).1.map GTurn.turn, (rest.foldl gstep (gs, g)).2.turn) =
      rest.foldl stepTurn (gs.map GTurn.turn, g.turn) := by
  induction rest with
  | nil => intro gs g; rfl
  | cons row rest ih =>
    intro gs g
    simp only [List.foldl_cons]
    rw [← gstep_erase gs g row]
    have h := ih (gstep (gs, g) row).1 (gstep (gs, g) row).2
    simpa [Prod.mk.eta] using h

/-- One `gstep` adds exactly the processed segment to the accounted multiset. -/
theorem gstep_gAll (gs : List GTurn) (g : GTurn) (row : Segment) :
    gAll (gstep (gs, g) row).1 (gstep (gs, g) row).2 = gAll gs g + {row} := by
  have hseed : gAll (gs ++ [g]) (gseed row) = gAll gs g + {row} := by
    simp only [gAll, gSegs, gseed, ← Multiset.coe_singleton, Multiset.coe_add]
    congr 1
    simp [gSegs, List.append_assoc]
  simp only [gstep]
  split_ifs
  · simp only [gAll, gSegs, ← Multiset.coe_singleton, Multiset.coe_add]
    rw [Multiset.coe_eq_coe]
    simp only [List.append_assoc]
    refine List.Perm.append_left _ (List.Perm.append_left _ ?_)
    exact List.perm_append_comm
  · exact hseed
  · simp only [gAll, gSegs, ← Multiset.coe_singleton, Multiset.coe_add]
    congr 1
    simp [List.append_assoc]
  · exact hseed

/-- Folding `gstep` accounts for exactly the consumed segments. -/
theorem gfold_gAll (rest : List Segment) : ∀ (gs : List GTurn) (g : GTurn),
    gAll (rest.foldl gstep (gs, g)).1 (rest.foldl gstep (gs, g)).2 =
      gAll gs g + (rest : Multiset Segment) := by
  induction rest with
  | nil => intro gs g; simp
  | cons row rest ih =>
    intro gs g
    simp only [List.foldl_cons]
    have h := ih (gstep (gs, g) row).1 (gstep (gs, g) row).2
    rw [Prod.mk.eta] at h
    rw [h, gstep_gAll, ← Multiset.cons_coe, ← Multiset.singleton_add, add_assoc]

/-- `joinSpace` over a non-empty list extended by one element. -/
theorem joinSpace_append (l : List String) (hl : l ≠ []) (b : String) :
    joinSpace (l ++ [b]) = joinSpace l ++ " " ++ b := by
  induction l with
  | nil => cases hl rfl
  | cons w ws ih =>
    cases ws with
    | nil => rfl
    | cons v vs =>
      have ih' := ih (by simp)
      show w ++ " " ++ joinSpace ((v :: vs) ++ [b]) =
        (w ++ " " ++ joinSpace (v :: vs)) ++ " " ++ b
      rw [ih']
      simp [String.append_assoc]

/-- One `gstep` preserves the ghost invariant on the closed and open turns. -/
theorem gstep_invar (gs : List GTurn) (g : GTurn) (row : Segment)
    (hgs : ∀ x ∈ gs, GInvar x) (hg : GInvar g) :
    (∀ x ∈ (gstep (gs, g) row).1, GInvar x) ∧ GInvar (gstep (gs, g) row).2 := by
  obtain ⟨ht, hs, hne⟩ := hg
  have hclose : (∀ x ∈ gs ++ [g], GInvar x) ∧ GInvar (gseed row) := by
    constructor
    · intro x hx
      rcases List.mem_append.mp hx with hx | hx
      · exact hgs x hx
      · rw [List.mem_singleton.mp hx]
        exact ⟨ht, hs, hne⟩
    · exact ⟨rfl, rfl, by simp [gseed]⟩
  simp only [gstep]
  split_ifs
  · refine ⟨hgs, ?_, hs, by simp⟩
    rw [ht, List.map_append]
    exact (joinSpace_append _ (by simpa using hne) _).symm
  · exact hclose
  · refine ⟨hgs, ht, ?_, hne⟩
    rw [hs, List.map_append]
    rfl
  · exact hclose

/-- The ghost invariant holds at the end of the fold. -/
theorem gfold_invar (rest : List Segment) : ∀ (gs : List GTurn) (g : GTurn),
    (∀ x ∈ gs, GInvar x) → GInvar g →
    (∀ x ∈ (rest.foldl gstep (gs, g)).1, GInvar x) ∧ GInvar (rest.foldl gstep (gs, g)).2 := by
  induction rest with
  | nil => intro gs g hgs hg; exact ⟨hgs, hg⟩
  | cons row rest ih =>
    intro gs g hgs hg
    simp only [List.foldl_cons]
    obtain ⟨h1, h2⟩ := gstep_invar gs g row hgs hg
    have h := ih (gstep (gs, g) row).1 (gstep (gs, g) row).2 h1 h2
    simpa [Prod.mk.eta] using h

/-- C8: conservation.  On any non-empty input the builder's output is the
erasure of a ghost run in which every input segment is accounted for exactly
once (as a multiset): each ghost turn's `text` is the space-join of the
trimmed texts of exactly its contributing segments, and its
`secondary_speech` holds exactly one annotation per absorbed segment. -/
theorem C8_conservation (s : Segment) (rest : List Segment) :
    ∃ (gts : List GTurn) (gcur : GTurn),
      rest.foldl gstep ([], gseed s) = (gts, gcur) ∧
      build_turns (s :: rest) = some ((gts ++ [gcur]).map GTurn.turn) ∧
      ((((gts ++ [gcur]).map gSegs).flatten : List Segment) : Multiset Segment) =
        ((s :: rest : List Segment) : Multiset Segment) ∧
      ∀ g ∈ gts ++ [gcur],
        g.turn.text = joinSpace (g.contrib.map (fun x => x.text.trim)) ∧
        g.turn.secondary_speech = g.absorbed.map bcNote ∧
        g.contrib ≠ [] := by
  refine ⟨(rest.foldl gstep ([], gseed s)).1, (rest.foldl gstep ([], gseed s)).2,
    (Prod.mk.eta).symm, ?_, ?_, ?_⟩
  · have h := gfold_erase rest [] (gseed s)
    have h1 := congrArg Prod.fst h
    have h2 := congrArg Prod.snd h
    have hgt : (gseed s).turn = seedTurn s := rfl
    simp only [List.map_nil] at h1 h2
    rw [hgt] at h1 h2
    simp only [build_turns, List.map_append, List.map_cons, List.map_nil]
    rw [h1, h2]
  · rw [List.map_append, List.flatten_append]
    simp only [List.map_cons, List.map_nil, List.flatten_cons, List.flatten_nil,
      List.append_nil]
    have h := gfold_gAll rest [] (gseed s)
    have hbase : gAll [] (gseed s) = ({s} : Multiset Segment) := by
      simp [gAll, gSegs, gseed]
    rw [hbase] at h
    simp only [gAll] at h
    rw [h, Multiset.singleton_add, Multiset.cons_coe]
  · intro g hgmem
    have h := gfold_invar rest [] (gseed s) (by intro x hx; simp at hx)
      ⟨rfl, rfl, by simp [gseed]⟩
    rcases List.mem_append.mp hgmem with hx | hx
    · exact h.1 g hx
    · rw [List.mem_singleton.mp hx]
      exact h.2

/-- C8 witness: the conservation statement instantiated on the concrete
backchannel scenario. -/
theorem C8_witness :
    ∃ (gts : List GTurn) (gcur : GTurn),
      [c7s1, c7s2].foldl gstep ([], gseed c7s0) = (gts, gcur) ∧
      build_turns [c7s0, c7s1, c7s2] = some ((gts ++ [gcur]).map GTurn.turn) ∧
      ((((gts ++ [gcur]).map gSegs).flatten : List Segment) : Multiset Segment) =
        (([c7s0, c7s1, c7s2] : List Segment) : Multiset Segment) ∧
      ∀ g ∈ gts ++ [gcur],
        g.turn.text = joinSpace (g.contrib.map (fun x => x.text.trim)) ∧
        g.turn.secondary_speech = g.absorbed.map bcNote ∧
        g.contrib ≠ [] :=
  C8_conservation c7s0 [c7s1, c7s2]
